import Mathlib

/-!
Verification of the investment-app core (wallet, portfolio trading, price cache)
against its natural-language specification.

The Python services under `backend/app/services` are shallowly embedded:
`Decimal` money amounts become `ℚ` (exact arithmetic), database tables become
lists of rows inside an explicit `DB` state, a SQLAlchemy `session.commit` is
the point where a function's returned `DB` replaces the old one, and a raised
exception becomes an `Except`/`Option` error value.  Faulty steps that the
spec talks about (a failing ledger insert, a failing candle persist, a failing
market fetch) are injected through explicit fault parameters, since the Python
code has no control over when its database or network layer fails.
-/

deriving instance DecidableEq for Except

set_option maxRecDepth 8192

namespace InvestApp

/-- Money/quantity values: Python `Decimal` modelled as exact rationals. -/
abbrev Q := ℚ

/-- `Wallet` row (`app/models.py`): one balance per user. -/
structure Wallet where
  user_id : Nat
  balance : Q
deriving Repr, DecidableEq

/-- Trade direction stored in a `Portfolio` row. -/
inductive TradeType where
  | buy
  | sell
deriving Repr, DecidableEq

/-- `Portfolio` row (`app/models.py`): one immutable ledger entry per trade. -/
structure LedgerEntry where
  user_id : Nat
  asset_symbol : String
  trade_type : TradeType
  qty : Q
  net_val : Q
  price : Q
  fee : Q
deriving Repr, DecidableEq

/-- `PriceHistory` row (`app/models.py`): one OHLC candle per
(asset_symbol, timestamp, interval).  Timestamps are epoch seconds. -/
structure PriceRow where
  asset_symbol : String
  timestamp : Nat
  interval : String
  «open» : Q
  high : Q
  low : Q
  close : Q
deriving Repr, DecidableEq

/-- The committed database state seen by the services. -/
structure DB where
  wallets : List Wallet
  portfolio : List LedgerEntry
  price_history : List PriceRow
deriving Repr, DecidableEq

/-- Replace the first element satisfying `p` by its image under `f`
(SQLAlchemy `query(...).first()` followed by an in-place mutation). -/
def updateFirst {α : Type} (p : α → Bool) (f : α → α) : List α → List α
  | [] => []
  | x :: xs => if p x then f x :: xs else x :: updateFirst p f xs

/-- `PriceService.SYMBOL_PAIR`. -/
def SYMBOL_PAIR : String := "USDT"

/-- Python `str.upper()` on one character (ASCII case, all that asset
symbols use). -/
def upperChar (c : Char) : Char :=
  if 'a' ≤ c ∧ c ≤ 'z' then Char.ofNat (c.toNat - 32) else c

/-- Python `str.upper()`. -/
def toUpperStr (s : String) : String := ⟨s.data.map upperChar⟩

/-- Python `str.replace(pat, rep)` on character lists; the fuel argument
(instantiated with the string length) only makes the left-to-right scan
structurally recursive. -/
def replaceFuel (pat rep : List Char) : Nat → List Char → List Char
  | 0, l => l
  | _, [] => []
  | fuel + 1, c :: cs =>
      if pat.isPrefixOf (c :: cs) then
        rep ++ replaceFuel pat rep fuel (List.drop (pat.length - 1) cs)
      else c :: replaceFuel pat rep fuel cs

/-- Python `str.replace(pat, rep)`. -/
def replaceStr (s pat rep : String) : String :=
  ⟨replaceFuel pat.data rep.data s.data.length s.data⟩

/-- `f"{asset_symbol.upper()}{SYMBOL_PAIR}"` as built by the trade and price
services. -/
def fullSymbol (s : String) : String := toUpperStr s ++ SYMBOL_PAIR

/-! ## WalletService (`app/services/wallet.py`) -/

/-- Failure modes of `WalletService.update_balance`: the explicit
`ValueError("Insufficient wallet balance.")`, and the `InvalidRequestError`
that `session.refresh` raises on a `Wallet` instance that was constructed for
a user without a row but never `session.add`-ed (so the commit persisted
nothing and the instance is not persistent). -/
inductive WalletErr where
  | insufficientFunds
  | notPersistent
deriving Repr, DecidableEq

/-- `WalletService.get_balance`: balance of the first `Wallet` row of the
user, `0` when no row exists. -/
def get_balance (uid : Nat) (db : DB) : Q :=
  match db.wallets.find? (fun w => w.user_id == uid) with
  | some w => w.balance
  | none => 0

/-- `WalletService.update_balance`: returns the committed database together
with the outcome.  On the existing-wallet path the new balance is committed
unless it would be negative; on the missing-wallet path the fresh `Wallet`
object is never added to the session, so nothing is committed and
`session.refresh` raises. -/
def update_balance (uid : Nat) (amount : Q) (db : DB) : DB × Except WalletErr Q :=
  match db.wallets.find? (fun w => w.user_id == uid) with
  | some w =>
      if w.balance + amount < 0 then
        (db, .error .insufficientFunds)
      else
        ({ db with
            wallets := updateFirst (fun w => w.user_id == uid)
              (fun w => { w with balance := w.balance + amount }) db.wallets },
         .ok (w.balance + amount))
  | none =>
      if (0 : Q) + amount < 0 then
        (db, .error .insufficientFunds)
      else
        (db, .error .notPersistent)

example : get_balance 1 ⟨[⟨1, 7⟩], [], []⟩ = 7 := by decide
example : (update_balance 1 (-10) ⟨[⟨1, 7⟩], [], []⟩).2 = .error .insufficientFunds := by
  with_unfolding_all decide
example : (update_balance 1 3 ⟨[⟨1, 7⟩], [], []⟩).1.wallets = [⟨1, 10⟩] := by
  with_unfolding_all decide
example : (update_balance 1 3 ⟨[], [], []⟩).2 = .error .notPersistent := by
  with_unfolding_all decide

/-! ## PriceService (`app/services/prices.py`) -/

/-- `ORDER BY timestamp DESC ... .first()`: a row of maximal timestamp
(the first such row in table order when timestamps tie). -/
def latestRow (rows : List PriceRow) : Option PriceRow :=
  rows.foldl
    (fun acc r =>
      match acc with
      | none => some r
      | some b => if b.timestamp < r.timestamp then some r else acc)
    none

/-- `PriceService.get_price` on the database path (`from_api=False`): the
close of the most recent candle of the full symbol within the last hour,
falling back to the most recent candle ever; `none` models the
`ValueError("Price not found ...")`.  `now` is the current epoch second; the
window condition `timestamp > now - 1h` is written overflow-free. -/
def get_price (asset_symbol : String) (now : Nat) (db : DB) : Option Q :=
  let full_symbol := fullSymbol asset_symbol
  let symRows := db.price_history.filter (fun r => r.asset_symbol == full_symbol)
  let recent := symRows.filter (fun r => now < r.timestamp + 3600)
  match latestRow recent with
  | some r => some r.close
  | none =>
      match latestRow symRows with
      | some r => some r.close
      | none => none

/-- One raw candle as returned by `PriceService.get_ohlc`. -/
structure Candle where
  timestamp : Nat
  «open» : Q
  high : Q
  low : Q
  close : Q
deriving Repr, DecidableEq

/-- Key predicate of the `filter_by(asset_symbol, timestamp, interval)`
lookup in `save_ohlc`. -/
def isKeyRow (fs iv : String) (ts : Nat) (r : PriceRow) : Bool :=
  r.asset_symbol == fs && r.interval == iv && r.timestamp == ts

/-- The `PriceHistory` row inserted for a candle with no existing row. -/
def mkRow (fs iv : String) (c : Candle) : PriceRow :=
  { asset_symbol := fs, timestamp := c.timestamp, interval := iv,
    «open» := c.«open», high := c.high, low := c.low, close := c.close }

/-- The in-place mutation `save_ohlc` applies to an existing candle row:
`open` and `close` are overwritten by the new candle, `high`/`low` merged
with `max`/`min`. -/
def mergeInto (c : Candle) (r : PriceRow) : PriceRow :=
  { r with «open» := c.«open», high := max r.high c.high,
           low := min r.low c.low, close := c.close }

/-- One iteration of the persistence loop of `save_ohlc`: merge into the
first existing row for the key, else insert a new row. -/
def mergeCandle (fs iv : String) (c : Candle) (rows : List PriceRow) : List PriceRow :=
  if rows.any (isKeyRow fs iv c.timestamp) then
    updateFirst (isKeyRow fs iv c.timestamp) (mergeInto c) rows
  else
    rows ++ [mkRow fs iv c]

/-- The whole persistence loop of `save_ohlc` over a fetched candle list. -/
def saveCandles (fs iv : String) (cs : List Candle) (rows : List PriceRow) : List PriceRow :=
  cs.foldl (fun acc c => mergeCandle fs iv c acc) rows

/-- The stored row for a candle key (first match in table order). -/
def findRow (fs iv : String) (ts : Nat) (rows : List PriceRow) : Option PriceRow :=
  rows.find? (isKeyRow fs iv ts)

/-- Outcome of the `get_ohlc` fetch from the exchange: a candle list, or the
`ValueError` that `get_ohlc` raises when the `ccxt` call fails. -/
inductive FetchOutcome where
  | ok (cs : List Candle)
  | fetchErr
deriving Repr

/-- Exceptions that can occur inside the `try` block of `save_ohlc`. -/
inductive SaveErr where
  | fetchFailure
  | persistFailure
deriving Repr, DecidableEq

/-- The per-candle persistence loop with an injected database fault:
`failAt = some k` makes the `session.add`/`session.commit` of the k-th
remaining candle raise.  Earlier candles are already committed (the loop
commits once per candle). -/
def persistCandles (fs iv : String) (failAt : Option Nat) :
    List Candle → List PriceRow → List PriceRow × Option SaveErr
  | [], rows => (rows, none)
  | c :: cs, rows =>
      if failAt = some 0 then (rows, some .persistFailure)
      else persistCandles fs iv (failAt.map (· - 1)) cs (mergeCandle fs iv c rows)

/-- The `try` block of `save_ohlc`: fetch, then persist candle by candle. -/
def save_ohlc_body (fs iv : String) (fetch : FetchOutcome) (failAt : Option Nat)
    (rows : List PriceRow) : List PriceRow × Option SaveErr :=
  match fetch with
  | .fetchErr => (rows, some .fetchFailure)
  | .ok cs => persistCandles fs iv failAt cs rows

/-- `PriceService.save_ohlc`: the second component is the exception escaping
to the caller.  The first handler `except Exception as ve` catches *every*
exception raised in the body (fetch failures and persistence failures alike)
and only logs it, so the second handler (`logger.critical` + `raise`) is
unreachable and nothing ever escapes. -/
def save_ohlc (fs iv : String) (fetch : FetchOutcome) (failAt : Option Nat)
    (rows : List PriceRow) : List PriceRow × Option SaveErr :=
  match save_ohlc_body fs iv fetch failAt rows with
  | (rows', some _) => (rows', none)
  | (rows', none) => (rows', none)

/-! ## PortfolioService (`app/services/portfolio.py`) -/

/-- `PortfolioService.FEE_RATE = Decimal("0.0001")`. -/
def FEE_RATE : Q := 1 / 10000

/-- `PortfolioService.MINIMUM_INVESTMENT = Decimal("10.0")`. -/
def MINIMUM_INVESTMENT : Q := 10

/-- Python `round(x, 3)` on `Decimal`: round to 3 fractional digits with
ties to even (`ROUND_HALF_EVEN`). -/
def roundHalfEven (x : Q) : Int :=
  let f := ⌊x⌋
  let r := x - f
  if r < 1 / 2 then f
  else if 1 / 2 < r then f + 1
  else if f % 2 = 0 then f else f + 1

/-- `round(·, 3)` as used on the sell path. -/
def round3 (x : Q) : Q := (roundHalfEven (x * 1000) : Q) / 1000

/-- The `ValueError`s a trade can raise, plus the injected database failure
of the final ledger insert (`session.add` + `session.commit`). -/
inductive TradeErr where
  | priceNotFound
  | priceZero
  | belowMinimum
  | insufficientBalance
  | noPosition
  | insufficientQty
  | invalidRequest
  | schemaInvalid
  | wallet (e : WalletErr)
  | appendFailed
deriving Repr, DecidableEq

/-- `PortfolioBuyRequestInternal`. -/
structure BuyReq where
  user_id : Nat
  asset_symbol : String
  amount_val : Q
deriving Repr, DecidableEq

/-- `PortfolioSellRequestInternal`: both `qty` and `perc_withdraw` are
optional; `perc_withdraw` is an `int`. -/
structure SellReq where
  user_id : Nat
  asset_symbol : String
  qty : Option Q
  perc_withdraw : Option Int
deriving Repr, DecidableEq

/-- Python truthiness of `data.qty` (`None` and `0` are falsy). -/
def truthyQty (s : SellReq) : Option Q :=
  match s.qty with
  | some q => if q = 0 then none else some q
  | none => none

/-- Python truthiness of `data.perc_withdraw`. -/
def truthyPerc (s : SellReq) : Option Int :=
  match s.perc_withdraw with
  | some p => if p = 0 then none else some p
  | none => none

/-- `PortfolioSellRequest.validate_withdraw_or_qty`: at least one of the two
fields must be truthy, and a truthy `perc_withdraw` must lie in [0, 100]. -/
def sell_schema_ok (s : SellReq) : Bool :=
  if truthyQty s = none ∧ truthyPerc s = none then false
  else
    match truthyPerc s with
    | some p => !(p < 0 || 100 < p)
    | none => true

/-- `PortfolioBuyRequest.validate_positive`: `amount_val` must be > 0. -/
def buy_schema_ok (b : BuyReq) : Bool := decide (0 < b.amount_val)

/-- Entries of a user, as filtered by every aggregate query. -/
def userEntries (uid : Nat) (db : DB) : List LedgerEntry :=
  db.portfolio.filter (fun e => e.user_id == uid)

/-- SQL `SUM` of a column over a list of ledger rows. -/
def sumCol (f : LedgerEntry → Q) (l : List LedgerEntry) : Q := (l.map f).sum

/-- `GROUP BY asset_symbol`: the distinct symbols, in first-occurrence
order. -/
def distinctSymbols (l : List String) : List String :=
  l.foldl (fun acc s => if s ∈ acc then acc else acc ++ [s]) []

/-- One row of `PortfolioService.get_summary`. -/
structure SummaryRow where
  asset_symbol : String
  total_qty : Q
  total_value : Q
  total_fees : Q
deriving Repr, DecidableEq

/-- `PortfolioService.get_summary`: per asset the signed quantity sum, the
absolute net-value sum (forced to 0 for a fully-closed position), and the
fee sum. -/
def get_summary (uid : Nat) (db : DB) : List SummaryRow :=
  let es := userEntries uid db
  (distinctSymbols (es.map (·.asset_symbol))).map fun sym =>
    let g := es.filter (fun e => e.asset_symbol == sym)
    let tq := sumCol (·.qty) g
    { asset_symbol := sym,
      total_qty := tq,
      total_value := if tq = 0 then 0 else |sumCol (·.net_val) g|,
      total_fees := sumCol (·.fee) g }

/-- The signed quantity sum of a (user, asset) pair over the ledger: the
**position**. -/
def position (uid : Nat) (sym : String) (l : List LedgerEntry) : Q :=
  (l.map (fun e => if e.user_id = uid ∧ e.asset_symbol = sym then e.qty else 0)).sum

/-- The ledger row built on the buy path of `_handle_buy`. -/
def buyEntry (b : BuyReq) (trade_price : Q) : LedgerEntry :=
  let transaction_fee := b.amount_val * FEE_RATE
  let net_value := b.amount_val - transaction_fee
  let qty := net_value / trade_price
  { user_id := b.user_id, asset_symbol := fullSymbol b.asset_symbol,
    trade_type := .buy, qty := qty, net_val := net_value,
    price := trade_price, fee := transaction_fee }

/-- `PortfolioService._handle_buy`.  `appendOk = false` injects a database
failure on the final `session.add`/`session.commit` of the ledger row; the
balance debit was already committed inside `update_balance`, so the state
keeps it. -/
def handle_buy (b : BuyReq) (now : Nat) (appendOk : Bool) (db : DB) :
    DB × Except TradeErr LedgerEntry :=
  match get_price b.asset_symbol now db with
  | none => (db, .error .priceNotFound)
  | some trade_price =>
    if trade_price = 0 then (db, .error .priceZero)
    else if b.amount_val < MINIMUM_INVESTMENT then (db, .error .belowMinimum)
    else if get_balance b.user_id db < b.amount_val then (db, .error .insufficientBalance)
    else
      match update_balance b.user_id (-b.amount_val) db with
      | (db', .error e) => (db', .error (.wallet e))
      | (db1, .ok _) =>
          if appendOk then
            ({ db1 with portfolio := db1.portfolio ++ [buyEntry b trade_price] },
             .ok (buyEntry b trade_price))
          else (db1, .error .appendFailed)

/-- The ledger row built on the sell path of `_handle_sell`
(`qty = -qty`, `net_val = round(-net_value, 3)`). -/
def sellEntry (uid : Nat) (fs : String) (q trade_price : Q) : LedgerEntry :=
  let amount_value := q * trade_price
  let transaction_fee := amount_value * FEE_RATE
  let net_value := amount_value - transaction_fee
  { user_id := uid, asset_symbol := fs, trade_type := .sell,
    qty := -q, net_val := round3 (-net_value), price := trade_price,
    fee := transaction_fee }

/-- Tail of `_handle_sell` once the quantity to sell is known: credit the
wallet with `round(net_value, 3)` and append the sell ledger row. -/
def sellCommit (uid : Nat) (fs : String) (q trade_price : Q) (appendOk : Bool)
    (db : DB) : DB × Except TradeErr LedgerEntry :=
  let amount_value := q * trade_price
  let transaction_fee := amount_value * FEE_RATE
  let net_value := amount_value - transaction_fee
  match update_balance uid (round3 net_value) db with
  | (db', .error e) => (db', .error (.wallet e))
  | (db1, .ok _) =>
      if appendOk then
        ({ db1 with portfolio := db1.portfolio ++ [sellEntry uid fs q trade_price] },
         .ok (sellEntry uid fs q trade_price))
      else (db1, .error .appendFailed)

/-- `PortfolioService._handle_sell`: resolve price, look the asset up in the
user's summary, choose the quantity from `qty` or `perc_withdraw`, then
commit. -/
def handle_sell (s : SellReq) (now : Nat) (appendOk : Bool) (db : DB) :
    DB × Except TradeErr LedgerEntry :=
  match get_price s.asset_symbol now db with
  | none => (db, .error .priceNotFound)
  | some trade_price =>
    if trade_price = 0 then (db, .error .priceZero)
    else
      let full_symbol := fullSymbol s.asset_symbol
      match (get_summary s.user_id db).find? (fun item => item.asset_symbol == full_symbol) with
      | none => (db, .error .noPosition)
      | some asset_summary =>
        if asset_summary.total_qty ≤ 0 then (db, .error .noPosition)
        else
          match truthyQty s with
          | some q =>
              if asset_summary.total_qty < q then (db, .error .insufficientQty)
              else sellCommit s.user_id full_symbol q trade_price appendOk db
          | none =>
              match truthyPerc s with
              | some perc =>
                  sellCommit s.user_id full_symbol
                    (asset_summary.total_qty * ((perc : Q) / 100)) trade_price appendOk db
              | none => (db, .error .invalidRequest)

/-- A trade request entering `PortfolioService.add_transaction`. -/
inductive TradeReq where
  | buy (b : BuyReq)
  | sell (s : SellReq)
deriving Repr

/-- The symbol a trade request refers to. -/
def reqSymbol : TradeReq → String
  | .buy b => b.asset_symbol
  | .sell s => s.asset_symbol

/-- `PortfolioService.add_transaction`: pydantic validation of the request
schema, then the buy or sell handler. -/
def executeTrade (req : TradeReq) (now : Nat) (appendOk : Bool) (db : DB) :
    DB × Except TradeErr LedgerEntry :=
  match req with
  | .buy b => if buy_schema_ok b then handle_buy b now appendOk db else (db, .error .schemaInvalid)
  | .sell s => if sell_schema_ok s then handle_sell s now appendOk db else (db, .error .schemaInvalid)

/-- `row.asset_symbol.replace('USDT', '')` in `get_pnl`. -/
def stripPair (s : String) : String := replaceStr s SYMBOL_PAIR ""

/-- One row of `PortfolioService.get_pnl`. -/
structure PnlRow where
  asset_symbol : String
  total_invested : Q
  total_received : Q
  current_qty : Q
  current_price : Q
  pnl : Q
deriving Repr, DecidableEq

/-- The PnL row of one asset group: realized `pnl = (-received) - invested`;
for a still-open position the cache price is resolved and the unrealized
term added (`none` models the `ValueError` of `get_price` aborting the whole
call); otherwise `current_price = 0`. -/
def pnlRow (uid now : Nat) (db : DB) (sym : String) : Option PnlRow :=
  let g := (userEntries uid db).filter (fun e => e.asset_symbol == sym)
  let total_invested := sumCol (fun e => if e.trade_type = .buy then e.net_val else 0) g
  let total_received := sumCol (fun e => if e.trade_type = .sell then e.net_val else 0) g
  let current_qty := sumCol (·.qty) g
  let pnl0 := (-total_received) - total_invested
  if 0 < current_qty then
    match get_price (stripPair sym) now db with
    | none => none
    | some current_price =>
        some { asset_symbol := sym, total_invested := total_invested,
               total_received := -total_received, current_qty := current_qty,
               current_price := current_price,
               pnl := pnl0 + current_price * current_qty }
  else
    some { asset_symbol := sym, total_invested := total_invested,
           total_received := -total_received, current_qty := current_qty,
           current_price := 0, pnl := pnl0 }

/-- Sequencing of the per-asset loop: the first failing price lookup aborts
the whole call. -/
def mapOpt {α β : Type} (f : α → Option β) : List α → Option (List β)
  | [] => some []
  | a :: as =>
      match f a with
      | none => none
      | some b => (mapOpt f as).map (b :: ·)

/-- `PortfolioService.get_pnl`. -/
def get_pnl (uid now : Nat) (db : DB) : Option (List PnlRow) :=
  mapOpt (pnlRow uid now db) (distinctSymbols ((userEntries uid db).map (·.asset_symbol)))

/-- A small concrete state used by several witnesses: user 1 holds 100 in
the wallet, and one candle of BTCUSDT with close 50 is stored at epoch 100. -/
def db0 : DB :=
  { wallets := [⟨1, 100⟩], portfolio := [],
    price_history := [⟨"BTCUSDT", 100, "1h", 50, 50, 50, 50⟩] }

/-- `fullSymbol` at the symbol used by the concrete witnesses. -/
theorem fullSymbol_BTC : fullSymbol "BTC" = "BTCUSDT" := by decide

example : get_price "BTC" 100 db0 = some 50 := by decide
example :
    (executeTrade (.buy ⟨1, "BTC", 50⟩) 100 true db0).2 =
      .ok ⟨1, "BTCUSDT", .buy, 9999/10000, 9999/200, 50, 1/200⟩ := by
  norm_num [executeTrade, buy_schema_ok, handle_buy, get_price, fullSymbol_BTC,
    latestRow, db0, get_balance, update_balance, updateFirst,
    buyEntry, FEE_RATE, MINIMUM_INVESTMENT]

/-! ## Generic list lemmas -/

theorem mem_updateFirst {α : Type} {p : α → Bool} {f : α → α} {l : List α} {w x : α}
    (hf : l.find? p = some w) (hx : x ∈ updateFirst p f l) : x = f w ∨ x ∈ l := by
  induction l with
  | nil => simp [updateFirst] at hx
  | cons a as ih =>
      by_cases hp : p a
      · rw [List.find?_cons_of_pos _ hp] at hf
        injection hf with hf
        subst hf
        simp only [updateFirst, hp, if_true, List.mem_cons] at hx
        rcases hx with h | h
        · exact Or.inl h
        · exact Or.inr (List.mem_cons_of_mem _ h)
      · rw [List.find?_cons_of_neg _ hp] at hf
        simp only [updateFirst, hp, if_false, Bool.false_eq_true, List.mem_cons] at hx
        rcases hx with h | h
        · exact Or.inr (by simp [h])
        · rcases ih hf h with h' | h'
          · exact Or.inl h'
          · exact Or.inr (List.mem_cons_of_mem _ h')

/-! ## Wallet lemmas -/

/-- A failing `update_balance` commits nothing. -/
theorem update_balance_err {uid : Nat} {amt : Q} {db : DB} {e : WalletErr}
    (h : (update_balance uid amt db).2 = .error e) : (update_balance uid amt db).1 = db := by
  unfold update_balance at h ⊢
  revert h
  split <;> split <;> intro h <;> first | rfl | simp at h

/-- `update_balance` never touches the ledger or the price history. -/
theorem update_balance_fst_rest (uid : Nat) (amt : Q) (db : DB) :
    (update_balance uid amt db).1.portfolio = db.portfolio ∧
      (update_balance uid amt db).1.price_history = db.price_history := by
  unfold update_balance
  cases db.wallets.find? (fun w => w.user_id == uid) <;> dsimp only <;> split <;> simp

/-- All wallet balances non-negative. -/
def WalletsNonneg (db : DB) : Prop := ∀ w ∈ db.wallets, 0 ≤ w.balance

/-- One `adjust` call of the spec: the committed state after
`update_balance` (unchanged when the call raises). -/
def adjustStep (db : DB) (c : Nat × Q) : DB := (update_balance c.1 c.2 db).1

theorem update_balance_preserves_nonneg (uid : Nat) (amt : Q) {db : DB}
    (h : WalletsNonneg db) : WalletsNonneg (update_balance uid amt db).1 := by
  unfold update_balance
  cases hf : db.wallets.find? (fun w => w.user_id == uid) with
  | none => dsimp only; split <;> exact h
  | some w =>
      dsimp only
      split
      · exact h
      · rename_i hneg
        intro x hx
        rcases mem_updateFirst hf hx with hx' | hx'
        · subst hx'
          dsimp only
          linarith [not_lt.mp hneg]
        · exact h x hx'

/-- C4: every sequence of balance adjustments keeps all balances ≥ 0, and a
call whose resulting balance would be negative fails with the
insufficient-funds error and leaves the stored state untouched. -/
theorem adjust_keeps_balances_nonneg (db : DB) (h : WalletsNonneg db) :
    (∀ ops : List (Nat × Q), WalletsNonneg (ops.foldl adjustStep db)) ∧
      ∀ uid amt, get_balance uid db + amt < 0 →
        (update_balance uid amt db).2 = .error .insufficientFunds ∧
          (update_balance uid amt db).1 = db := by
  constructor
  · intro ops
    induction ops generalizing db with
    | nil => exact h
    | cons op ops ih =>
        exact ih _ (update_balance_preserves_nonneg op.1 op.2 h)
  · intro uid amt hneg
    unfold get_balance at hneg
    unfold update_balance
    cases hf : db.wallets.find? (fun w => w.user_id == uid) <;> rw [hf] at hneg <;>
        dsimp only <;> rw [if_pos hneg] <;> exact ⟨rfl, rfl⟩

/-- Witness for C4 at a concrete state: a wallet at 5 stays non-negative
after a +3 adjustment, and a −7 adjustment fails leaving the state as it
was. -/
theorem adjust_keeps_balances_nonneg_witness :
    WalletsNonneg ([((1 : Nat), (3 : Q))].foldl adjustStep ⟨[⟨1, 5⟩], [], []⟩) ∧
      ((update_balance 1 (-7) ⟨[⟨1, 5⟩], [], []⟩).2 = .error .insufficientFunds ∧
        (update_balance 1 (-7) ⟨[⟨1, 5⟩], [], []⟩).1 = ⟨[⟨1, 5⟩], [], []⟩) :=
  ⟨(adjust_keeps_balances_nonneg ⟨[⟨1, 5⟩], [], []⟩ (by intro w hw; fin_cases hw; norm_num)).1
      [(1, 3)],
    (adjust_keeps_balances_nonneg ⟨[⟨1, 5⟩], [], []⟩ (by intro w hw; fin_cases hw; norm_num)).2
      1 (-7) (by norm_num [get_balance])⟩

/-- C5: `update_balance` for a user with no wallet row persists nothing — the
new `Wallet` object is never added to the session, so the commit writes
nothing, `session.refresh` raises, and a subsequent `get_balance` still
returns 0 instead of the deposited 5. -/
theorem adjust_absent_wallet_lost :
    (update_balance 1 5 ⟨[], [], []⟩).2 = .error .notPersistent ∧
      (update_balance 1 5 ⟨[], [], []⟩).1 = (⟨[], [], []⟩ : DB) ∧
      get_balance 1 (update_balance 1 5 ⟨[], [], []⟩).1 = 0 := by
  with_unfolding_all decide

/-! ## Zero / missing price at the trade interface (C10) -/

/-- C10: a resolved cache price of exactly 0 is rejected by `not trade_price`
before any state is touched — the trade fails with the
"Unable to fetch asset price." error and the database is returned unchanged,
on the buy and the sell path alike; a missing price likewise aborts both
paths with no state change. -/
theorem zero_price_trade_rejected (now : Nat) (appendOk : Bool) (db : DB)
    (b : BuyReq) (s : SellReq) :
    (get_price b.asset_symbol now db = some 0 →
        handle_buy b now appendOk db = (db, .error .priceZero)) ∧
    (get_price s.asset_symbol now db = some 0 →
        handle_sell s now appendOk db = (db, .error .priceZero)) ∧
    (get_price b.asset_symbol now db = none →
        handle_buy b now appendOk db = (db, .error .priceNotFound)) ∧
    (get_price s.asset_symbol now db = none →
        handle_sell s now appendOk db = (db, .error .priceNotFound)) := by
  refine ⟨fun h => ?_, fun h => ?_, fun h => ?_, fun h => ?_⟩
  · unfold handle_buy
    rw [h]
    simp
  · unfold handle_sell
    rw [h]
    simp
  · unfold handle_buy
    rw [h]
  · unfold handle_sell
    rw [h]

/-- A state whose only candle for BTCUSDT closes at 0. -/
def dbZ : DB := ⟨[⟨1, 100⟩], [], [⟨"BTCUSDT", 100, "1h", 0, 0, 0, 0⟩]⟩

/-- Witness for C10: with a stored close of 0, a concrete buy and a concrete
sell both fail with the price error and leave the state unchanged. -/
theorem zero_price_trade_rejected_witness :
    handle_buy ⟨1, "BTC", 50⟩ 100 true dbZ = (dbZ, .error .priceZero) ∧
      handle_sell ⟨1, "BTC", some 1, none⟩ 100 true dbZ = (dbZ, .error .priceZero) :=
  ⟨(zero_price_trade_rejected 100 true dbZ ⟨1, "BTC", 50⟩ ⟨1, "BTC", some 1, none⟩).1
      (by decide),
    (zero_price_trade_rejected 100 true dbZ ⟨1, "BTC", 50⟩ ⟨1, "BTC", some 1, none⟩).2.1
      (by decide)⟩

/-! ## Candle merge semantics (C2) -/

theorem find?_of_none_append {α : Type} {p : α → Bool} {l : List α}
    (h : l.find? p = none) (l₂ : List α) : (l ++ l₂).find? p = l₂.find? p := by
  induction l with
  | nil => rfl
  | cons a as ih =>
      cases hpa : p a with
      | true => rw [List.find?_cons_of_pos _ hpa] at h; exact absurd h (by simp)
      | false =>
          rw [List.find?_cons_of_neg _ (by simp [hpa])] at h
          rw [List.cons_append, List.find?_cons_of_neg _ (by simp [hpa])]
          exact ih h

theorem find?_updateFirst {α : Type} {p : α → Bool} {f : α → α} {l : List α} {r : α}
    (hpf : ∀ x, p (f x) = p x) (h : l.find? p = some r) :
    (updateFirst p f l).find? p = some (f r) := by
  induction l with
  | nil => simp at h
  | cons a as ih =>
      cases hpa : p a with
      | true =>
          rw [List.find?_cons_of_pos _ hpa] at h
          injection h with h
          subst h
          show (updateFirst p f (a :: as)).find? p = _
          rw [updateFirst, if_pos hpa, List.find?_cons_of_pos _ (by rw [hpf]; exact hpa)]
      | false =>
          rw [List.find?_cons_of_neg _ (by simp [hpa])] at h
          show (updateFirst p f (a :: as)).find? p = _
          rw [updateFirst, if_neg (by simp [hpa]), List.find?_cons_of_neg _ (by simp [hpa])]
          exact ih h

/-- `mergeInto` never changes the key fields of a row. -/
theorem isKeyRow_mergeInto (fs iv : String) (ts : Nat) (c : Candle) (r : PriceRow) :
    isKeyRow fs iv ts (mergeInto c r) = isKeyRow fs iv ts r := rfl

theorem any_of_find?_some {α : Type} {p : α → Bool} {l : List α} {r : α}
    (h : l.find? p = some r) : l.any p = true := by
  exact List.any_eq_true.mpr ⟨r, List.mem_of_find?_eq_some h, List.find?_some h⟩

theorem any_of_find?_none {α : Type} {p : α → Bool} {l : List α}
    (h : l.find? p = none) : l.any p = false := by
  rw [List.any_eq_false]
  intro x hx
  simpa using List.find?_eq_none.mp h x hx

/-- C2 amended: merging a candle whose (symbol, interval, bucket) row exists
stores `open = new.open` (the code overwrites it — not `existing.open` as
claimed), `high = max(existing, new)`, `low = min(existing, new)`,
`close = new.close`; with no existing row, the candle's own four values are
inserted. -/
theorem candle_merge_semantics (fs iv : String) (c : Candle) (rows : List PriceRow) :
    (∀ r, findRow fs iv c.timestamp rows = some r →
        findRow fs iv c.timestamp (mergeCandle fs iv c rows) =
          some { r with «open» := c.«open», high := max r.high c.high,
                        low := min r.low c.low, close := c.close }) ∧
    (findRow fs iv c.timestamp rows = none →
        findRow fs iv c.timestamp (mergeCandle fs iv c rows) = some (mkRow fs iv c)) := by
  constructor
  · intro r h
    unfold findRow at h ⊢
    unfold mergeCandle
    rw [if_pos (any_of_find?_some h)]
    exact find?_updateFirst (fun x => isKeyRow_mergeInto fs iv c.timestamp c x) h
  · intro h
    unfold findRow at h ⊢
    unfold mergeCandle
    rw [if_neg (by simp [any_of_find?_none h])]
    rw [find?_of_none_append h]
    rw [List.find?_cons_of_pos _ (by simp [isKeyRow, mkRow])]

/-- Witness for C2 (amended) at the spec's own merge example. -/
theorem candle_merge_semantics_witness :
    findRow "BTCUSDT" "1h" 0 (mergeCandle "BTCUSDT" "1h" ⟨0, 20, 95, 85, 88⟩
        [⟨"BTCUSDT", 0, "1h", 10, 100, 90, 95⟩]) =
      some { (⟨"BTCUSDT", 0, "1h", 10, 100, 90, 95⟩ : PriceRow) with
              «open» := (20 : Q), high := max (100 : Q) 95, low := min (90 : Q) 85,
              close := (88 : Q) } :=
  (candle_merge_semantics "BTCUSDT" "1h" ⟨0, 20, 95, 85, 88⟩
      [⟨"BTCUSDT", 0, "1h", 10, 100, 90, 95⟩]).1
    ⟨"BTCUSDT", 0, "1h", 10, 100, 90, 95⟩ (by decide)

/-- The stored row of the spec's merge example, before re-ingestion. -/
def exRow : PriceRow := ⟨"BTCUSDT", 0, "1h", 10, 100, 90, 95⟩

/-- The overlapping candle for the same bucket. -/
def exCandle : Candle := ⟨0, 20, 95, 85, 88⟩

/-- Counterexample to C2 as stated: merging the overlapping candle
(open 20, high 95, low 85, close 88) into the stored row
(open 10, high 100, low 90, close 95) yields open 20 — the new candle's
open — whereas the claim demands the existing open 10 be preserved
(high/low/close do merge as claimed). -/
theorem candle_merge_open_not_preserved :
    findRow "BTCUSDT" "1h" 0 (mergeCandle "BTCUSDT" "1h" exCandle [exRow]) =
        some ⟨"BTCUSDT", 0, "1h", 20, 100, 85, 88⟩ ∧
      ¬ (findRow "BTCUSDT" "1h" 0 (mergeCandle "BTCUSDT" "1h" exCandle [exRow])).map
          (fun r => r.«open») = some 10 := by
  with_unfolding_all decide

/-! ## Ingestion idempotence (C6) -/

/-- The first `p`-match of the list exists and is a fixpoint of `f`. -/
def satAux {α : Type} (p : α → Bool) (f : α → α) : List α → Prop
  | [] => False
  | r :: rs => if p r then f r = r else satAux p f rs

theorem satAux_any {α : Type} {p : α → Bool} {f : α → α} :
    ∀ {l : List α}, satAux p f l → l.any p = true
  | [], h => absurd h (by simp [satAux])
  | r :: rs, h => by
      by_cases hp : p r
      · simp [hp]
      · simp only [satAux, hp, if_false] at h
        simp [satAux_any h]

theorem updateFirst_eq_of_satAux {α : Type} {p : α → Bool} {f : α → α} :
    ∀ {l : List α}, satAux p f l → updateFirst p f l = l
  | [], h => absurd h (by simp [satAux])
  | r :: rs, h => by
      by_cases hp : p r
      · simp only [satAux, hp, if_true] at h
        simp [updateFirst, hp, h]
      · simp only [satAux, hp, if_false] at h
        simp [updateFirst, hp, updateFirst_eq_of_satAux h]

theorem satAux_append {α : Type} {p : α → Bool} {f : α → α} :
    ∀ {l : List α}, satAux p f l → ∀ l₂, satAux p f (l ++ l₂)
  | [], h => absurd h (by simp [satAux])
  | r :: rs, h => by
      intro l₂
      by_cases hp : p r
      · simp only [satAux, hp, if_true] at h
        simpa [satAux, hp] using h
      · simp only [satAux, hp, if_false] at h
        simpa [satAux, hp] using satAux_append h l₂

/-- `satAux` survives an `updateFirst` for a disjoint predicate whose
mutation preserves both predicates. -/
theorem satAux_updateFirst_other {α : Type} {p p' : α → Bool} {f f' : α → α}
    (hpf' : ∀ x, p (f' x) = p x) (hdisj : ∀ x, p x = true → p' x = false) :
    ∀ {l : List α}, satAux p f l → satAux p f (updateFirst p' f' l)
  | [], h => absurd h (by simp [satAux])
  | r :: rs, h => by
      by_cases hp : p r
      · simp only [satAux, hp, if_true] at h
        have hp' : p' r = false := hdisj r hp
        simp [updateFirst, hp', satAux, hp, h]
      · simp only [satAux, hp, if_false, Bool.false_eq_true] at h
        by_cases hq : p' r
        · simp [updateFirst, hq, satAux, hpf' r, hp, h]
        · simp [updateFirst, hq, satAux, hp, satAux_updateFirst_other hpf' hdisj h]

/-- Merging a candle twice into a row is the same as merging it once. -/
theorem mergeInto_idem (c : Candle) (r : PriceRow) :
    mergeInto c (mergeInto c r) = mergeInto c r := by
  simp [mergeInto, max_assoc, min_assoc]

/-- The freshly inserted row of a candle is already saturated by it. -/
theorem mergeInto_mkRow (fs iv : String) (c : Candle) :
    mergeInto c (mkRow fs iv c) = mkRow fs iv c := by
  simp [mergeInto, mkRow]

theorem satAux_updateFirst_self {α : Type} {p : α → Bool} {f : α → α}
    (hpf : ∀ x, p (f x) = p x) (hff : ∀ x, f (f x) = f x) :
    ∀ {l : List α}, l.any p = true → satAux p f (updateFirst p f l)
  | [], h => by simp at h
  | r :: rs, h => by
      by_cases hp : p r
      · simp [updateFirst, hp, satAux, hpf r, hff r]
      · simp only [List.any_cons, hp, Bool.false_or] at h
        simp [updateFirst, hp, satAux, satAux_updateFirst_self hpf hff h]

theorem satAux_all_false_append {α : Type} {p : α → Bool} {f : α → α} :
    ∀ {l : List α}, l.any p = false → ∀ {l₂}, satAux p f l₂ → satAux p f (l ++ l₂)
  | [], _, _, h₂ => h₂
  | r :: rs, h, l₂, h₂ => by
      simp only [List.any_cons, Bool.or_eq_false_iff] at h
      simpa [satAux, h.1] using satAux_all_false_append h.2 h₂

/-- After `mergeCandle c`, the stored row of `c`'s bucket absorbs any further
merge of `c`. -/
theorem satAux_mergeCandle (fs iv : String) (c : Candle) (l : List PriceRow) :
    satAux (isKeyRow fs iv c.timestamp) (mergeInto c) (mergeCandle fs iv c l) := by
  unfold mergeCandle
  by_cases h : l.any (isKeyRow fs iv c.timestamp) = true
  · rw [if_pos h]
    exact satAux_updateFirst_self (fun x => isKeyRow_mergeInto fs iv c.timestamp c x)
      (mergeInto_idem c) h
  · rw [if_neg h]
    refine satAux_all_false_append (by simpa using h) ?_
    have hkey : isKeyRow fs iv c.timestamp (mkRow fs iv c) = true := by simp [isKeyRow, mkRow]
    simp [satAux, hkey, mergeInto_mkRow]

/-- Saturation for `c` survives merging a candle of a different bucket. -/
theorem satAux_mergeCandle_other (fs iv : String) {c c' : Candle}
    (hts : c.timestamp ≠ c'.timestamp) {l : List PriceRow}
    (h : satAux (isKeyRow fs iv c.timestamp) (mergeInto c) l) :
    satAux (isKeyRow fs iv c.timestamp) (mergeInto c) (mergeCandle fs iv c' l) := by
  unfold mergeCandle
  split
  · refine satAux_updateFirst_other (fun x => isKeyRow_mergeInto fs iv c.timestamp c' x)
      (fun x hx => ?_) h
    simp only [isKeyRow, Bool.and_eq_true, beq_iff_eq] at hx
    have hxts : x.timestamp ≠ c'.timestamp := by rw [hx.2]; exact hts
    simp [isKeyRow, hxts]
  · exact satAux_append h _

/-- Saturation for `c` survives a whole pass over candles of other buckets. -/
theorem satAux_saveCandles_other (fs iv : String) {c : Candle} :
    ∀ {cs : List Candle}, (∀ c' ∈ cs, c.timestamp ≠ c'.timestamp) →
      ∀ {l : List PriceRow}, satAux (isKeyRow fs iv c.timestamp) (mergeInto c) l →
        satAux (isKeyRow fs iv c.timestamp) (mergeInto c) (saveCandles fs iv cs l)
  | [], _, _, h => h
  | c' :: cs, hne, l, h => by
      show satAux _ _ (saveCandles fs iv cs (mergeCandle fs iv c' l))
      exact satAux_saveCandles_other fs iv (fun x hx => hne x (List.mem_cons_of_mem _ hx))
        (satAux_mergeCandle_other fs iv (hne c' (List.mem_cons_self c' cs)) h)

/-- After one ingestion pass, every candle of the (distinct-bucket) payload
is saturated in the stored rows. -/
theorem satAux_after_pass (fs iv : String) :
    ∀ {cs : List Candle}, cs.Pairwise (fun a b => a.timestamp ≠ b.timestamp) →
      ∀ (l : List PriceRow) {c : Candle}, c ∈ cs →
        satAux (isKeyRow fs iv c.timestamp) (mergeInto c) (saveCandles fs iv cs l)
  | [], _, _, _, hc => absurd hc (by simp)
  | c' :: cs, hp, l, c, hc => by
      rcases List.mem_cons.mp hc with rfl | hc'
      · show satAux _ _ (saveCandles fs iv cs (mergeCandle fs iv c l))
        exact satAux_saveCandles_other fs iv
          (fun x hx => (List.pairwise_cons.mp hp).1 x hx)
          (satAux_mergeCandle fs iv c l)
      · show satAux _ _ (saveCandles fs iv cs (mergeCandle fs iv c' l))
        exact satAux_after_pass fs iv (List.pairwise_cons.mp hp).2 _ hc'

/-- A pass over candles that are all saturated in `l` leaves `l` unchanged. -/
theorem saveCandles_eq_of_satAux (fs iv : String) :
    ∀ {cs : List Candle} {l : List PriceRow},
      (∀ c ∈ cs, satAux (isKeyRow fs iv c.timestamp) (mergeInto c) l) →
        saveCandles fs iv cs l = l
  | [], _, _ => rfl
  | c :: cs, l, h => by
      have hc := h c (List.mem_cons_self c cs)
      have hmerge : mergeCandle fs iv c l = l := by
        unfold mergeCandle
        rw [if_pos (satAux_any hc)]
        exact updateFirst_eq_of_satAux hc
      show saveCandles fs iv cs (mergeCandle fs iv c l) = l
      rw [hmerge]
      exact saveCandles_eq_of_satAux fs iv fun c' hc' => h c' (List.mem_cons_of_mem _ hc')

/-- C6: ingesting the same candle payload twice (one candle per bucket, as
`fetch_ohlcv` returns) stores exactly the rows of a single ingestion — the
second pass changes no row and inserts none. -/
theorem ingest_idempotent (fs iv : String) (cs : List Candle) (rows : List PriceRow)
    (hd : cs.Pairwise (fun a b => a.timestamp ≠ b.timestamp)) :
    saveCandles fs iv cs (saveCandles fs iv cs rows) = saveCandles fs iv cs rows :=
  saveCandles_eq_of_satAux fs iv fun _ hc => satAux_after_pass fs iv hd rows hc

/-- Witness for C6: re-ingesting a two-candle payload over a half-merged
store is a no-op. -/
theorem ingest_idempotent_witness :
    saveCandles "BTCUSDT" "1h" [⟨0, 20, 95, 85, 88⟩, ⟨3600, 1, 2, 1, 2⟩]
        (saveCandles "BTCUSDT" "1h" [⟨0, 20, 95, 85, 88⟩, ⟨3600, 1, 2, 1, 2⟩] [exRow]) =
      saveCandles "BTCUSDT" "1h" [⟨0, 20, 95, 85, 88⟩, ⟨3600, 1, 2, 1, 2⟩] [exRow] :=
  ingest_idempotent "BTCUSDT" "1h" [⟨0, 20, 95, 85, 88⟩, ⟨3600, 1, 2, 1, 2⟩] [exRow]
    (by simp)

/-! ## Ingestion error handling (C8) -/

theorem persistCandles_fail_take (fs iv : String) :
    ∀ (cs : List Candle) (k : Nat) (rows : List PriceRow),
      (persistCandles fs iv (some k) cs rows).1 = saveCandles fs iv (List.take k cs) rows
  | [], k, rows => by cases k <;> rfl
  | c :: cs, 0, rows => by simp [persistCandles, saveCandles]
  | c :: cs, k + 1, rows => by
      show (persistCandles fs iv (some (k + 1)) (c :: cs) rows).1 = _
      rw [persistCandles, if_neg (by simp)]
      show (persistCandles fs iv (some k) cs (mergeCandle fs iv c rows)).1 = _
      rw [persistCandles_fail_take fs iv cs k (mergeCandle fs iv c rows)]
      rfl

/-- C8: `save_ohlc` never raises to its caller.  A fetch failure is logged
and leaves the store untouched (as the claim says), but a failure while
persisting candle `k` is *also* swallowed by the first `except Exception`
handler — the `raise` in the second handler is dead code — with the candles
before `k` remaining durably written. -/
theorem save_ohlc_never_raises (fs iv : String) (failAt : Option Nat)
    (rows : List PriceRow) (cs : List Candle) (k : Nat) :
    save_ohlc fs iv .fetchErr failAt rows = (rows, none) ∧
      (save_ohlc fs iv (.ok cs) failAt rows).2 = none ∧
      (save_ohlc fs iv (.ok cs) (some k) rows).1 =
        saveCandles fs iv (List.take k cs) rows := by
  refine ⟨rfl, ?_, ?_⟩
  · unfold save_ohlc
    split <;> simp_all
  · unfold save_ohlc
    have h := persistCandles_fail_take fs iv cs k rows
    unfold save_ohlc_body
    split <;> simp_all

/-! ## Positions and the summary lookup -/

theorem find?_map_local {α β : Type} (f : α → β) (p : β → Bool) :
    ∀ l : List α, (l.map f).find? p = (l.find? fun a => p (f a)).map f
  | [] => rfl
  | a :: as => by
      rw [List.map_cons]
      cases hpa : p (f a) with
      | true =>
          rw [List.find?_cons_of_pos _ hpa]
          have hr : List.find? (fun a => p (f a)) (a :: as) = some a :=
            List.find?_cons_of_pos _ hpa
          rw [hr]
          rfl
      | false =>
          rw [List.find?_cons_of_neg _ (by simp [hpa])]
          have hr : List.find? (fun a => p (f a)) (a :: as) = List.find? (fun a => p (f a)) as :=
            List.find?_cons_of_neg _ (by simp [hpa])
          rw [hr]
          exact find?_map_local f p as

theorem find?_map_eq_some {α β : Type} {f : α → β} {p : β → Bool} {l : List α} {b : β}
    (h : (l.map f).find? p = some b) : ∃ a ∈ l, b = f a ∧ p (f a) = true := by
  rw [find?_map_local] at h
  cases hf : l.find? (fun a => p (f a)) with
  | none => rw [hf] at h; simp at h
  | some a =>
      rw [hf] at h
      simp at h
      exact ⟨a, List.mem_of_find?_eq_some hf, h.symm, by simpa using List.find?_some hf⟩

/-- The position is the quantity sum of the doubly filtered ledger. -/
theorem position_eq_sum_filter (uid : Nat) (sym : String) (l : List LedgerEntry) :
    position uid sym l =
      sumCol (·.qty)
        ((l.filter (fun e => e.user_id == uid)).filter (fun e => e.asset_symbol == sym)) := by
  induction l with
  | nil => rfl
  | cons e l ih =>
      unfold position sumCol at ih ⊢
      simp only [List.map_cons, List.sum_cons, List.filter_cons]
      by_cases hu : e.user_id = uid
      · by_cases hs : e.asset_symbol = sym
        · simp [hu, hs, ih]
        · simp [hu, hs, ih]
      · simp [hu, ih]

/-- The summary row found for a full symbol carries exactly the user's
position in that symbol. -/
theorem get_summary_total_qty {uid : Nat} {db : DB} {fs : String} {row : SummaryRow}
    (h : (get_summary uid db).find? (fun item => item.asset_symbol == fs) = some row) :
    row.total_qty = position uid fs db.portfolio := by
  unfold get_summary at h
  obtain ⟨sym, _, hrow, hp⟩ := find?_map_eq_some h
  have hsym : sym = fs := by simpa using hp
  subst hsym
  subst hrow
  show sumCol (·.qty) ((userEntries uid db).filter (fun e => e.asset_symbol == sym)) =
    position uid sym db.portfolio
  rw [position_eq_sum_filter]
  rfl

/-- Appending one entry moves the position by the entry's quantity when the
entry belongs to the (user, asset) pair, else leaves it unchanged. -/
theorem position_append (uid : Nat) (sym : String) (l : List LedgerEntry) (e : LedgerEntry) :
    position uid sym (l ++ [e]) =
      position uid sym l + (if e.user_id = uid ∧ e.asset_symbol = sym then e.qty else 0) := by
  simp [position]

/-! ## Branch structure of the two trade handlers -/

/-- Case analysis of `sellCommit`: either the wallet credit raises (state
kept) or both runs reach the ledger insert — with the committed wallet
credit surviving either way. -/
theorem sellCommit_master (uid : Nat) (fs : String) (q p : Q) (db : DB) :
    (∃ e, e ≠ TradeErr.appendFailed ∧ ∀ ok, sellCommit uid fs q p ok db = (db, .error e)) ∨
    (∃ db1, db1.portfolio = db.portfolio ∧
      ∀ ok, sellCommit uid fs q p ok db =
        (if ok then
          ({ db1 with portfolio := db1.portfolio ++ [sellEntry uid fs q p] },
            .ok (sellEntry uid fs q p))
        else (db1, .error .appendFailed))) := by
  cases hub : update_balance uid (round3 (q * p - q * p * FEE_RATE)) db with
  | mk db1 r =>
      cases r with
      | error e =>
          left
          have hdb : db1 = db := by
            have h2 : (update_balance uid (round3 (q * p - q * p * FEE_RATE)) db).2 =
                .error e := by rw [hub]
            have h1 := update_balance_err h2
            rw [hub] at h1
            exact h1
          subst hdb
          exact ⟨.wallet e, by simp, fun ok => by simp [sellCommit, hub]⟩
      | ok v =>
          right
          refine ⟨db1, ?_, fun ok => ?_⟩
          · have h1 := (update_balance_fst_rest uid (round3 (q * p - q * p * FEE_RATE)) db).1
            rw [hub] at h1
            exact h1
          · cases ok <;> simp [sellCommit, hub]

/-- Case analysis of `_handle_buy`: every raise before the ledger insert
keeps the state; once the debit is committed, only the injected insert fault
separates the two runs. -/
theorem handle_buy_master (b : BuyReq) (now : Nat) (db : DB) :
    (∃ e, e ≠ TradeErr.appendFailed ∧ ∀ ok, handle_buy b now ok db = (db, .error e)) ∨
    (∃ db1 p, db1.portfolio = db.portfolio ∧
      get_price b.asset_symbol now db = some p ∧ ¬p = 0 ∧
      MINIMUM_INVESTMENT ≤ b.amount_val ∧
      ∀ ok, handle_buy b now ok db =
        (if ok then
          ({ db1 with portfolio := db1.portfolio ++ [buyEntry b p] }, .ok (buyEntry b p))
        else (db1, .error .appendFailed))) := by
  cases hp : get_price b.asset_symbol now db with
  | none => exact Or.inl ⟨.priceNotFound, by simp, fun ok => by simp [handle_buy, hp]⟩
  | some p =>
      by_cases hz : p = 0
      · exact Or.inl ⟨.priceZero, by simp, fun ok => by simp [handle_buy, hp, hz]⟩
      · by_cases hmin : b.amount_val < MINIMUM_INVESTMENT
        · exact Or.inl ⟨.belowMinimum, by simp, fun ok => by simp [handle_buy, hp, hz, hmin]⟩
        · by_cases hbal : get_balance b.user_id db < b.amount_val
          · exact Or.inl
              ⟨.insufficientBalance, by simp, fun ok => by simp [handle_buy, hp, hz, hmin, hbal]⟩
          · cases hub : update_balance b.user_id (-b.amount_val) db with
            | mk db1 r =>
                cases r with
                | error e =>
                    left
                    have hdb : db1 = db := by
                      have h2 : (update_balance b.user_id (-b.amount_val) db).2 = .error e := by
                        rw [hub]
                      have h1 := update_balance_err h2
                      rw [hub] at h1
                      exact h1
                    subst hdb
                    exact ⟨.wallet e, by simp,
                      fun ok => by simp [handle_buy, hp, hz, hmin, hbal, hub]⟩
                | ok v =>
                    right
                    refine ⟨db1, p, ?_, rfl, hz, not_lt.mp hmin, fun ok => ?_⟩
                    · have h1 := (update_balance_fst_rest b.user_id (-b.amount_val) db).1
                      rw [hub] at h1
                      exact h1
                    · cases ok <;> simp [handle_buy, hp, hz, hmin, hbal, hub]

/-- Case analysis of `_handle_sell`. -/
theorem handle_sell_master (s : SellReq) (now : Nat) (db : DB) :
    (∃ e, e ≠ TradeErr.appendFailed ∧ ∀ ok, handle_sell s now ok db = (db, .error e)) ∨
    (∃ db1 q p, db1.portfolio = db.portfolio ∧
      get_price s.asset_symbol now db = some p ∧
      0 < position s.user_id (fullSymbol s.asset_symbol) db.portfolio ∧
      (q ≤ position s.user_id (fullSymbol s.asset_symbol) db.portfolio ∨
        ∃ perc : Int, truthyPerc s = some perc ∧
          q = position s.user_id (fullSymbol s.asset_symbol) db.portfolio * ((perc : Q) / 100)) ∧
      ∀ ok, handle_sell s now ok db =
        (if ok then
          ({ db1 with
              portfolio := db1.portfolio ++ [sellEntry s.user_id (fullSymbol s.asset_symbol) q p] },
            .ok (sellEntry s.user_id (fullSymbol s.asset_symbol) q p))
        else (db1, .error .appendFailed))) := by
  cases hp : get_price s.asset_symbol now db with
  | none => exact Or.inl ⟨.priceNotFound, by simp, fun ok => by simp [handle_sell, hp]⟩
  | some p =>
      by_cases hz : p = 0
      · exact Or.inl ⟨.priceZero, by simp, fun ok => by simp [handle_sell, hp, hz]⟩
      · cases hfind : (get_summary s.user_id db).find?
            (fun item => item.asset_symbol == fullSymbol s.asset_symbol) with
        | none =>
            exact Or.inl ⟨.noPosition, by simp, fun ok => by simp [handle_sell, hp, hz, hfind]⟩
        | some asset_summary =>
            have hqty := get_summary_total_qty hfind
            by_cases hpos : asset_summary.total_qty ≤ 0
            · exact Or.inl
                ⟨.noPosition, by simp, fun ok => by simp [handle_sell, hp, hz, hfind, hpos]⟩
            · cases hq : truthyQty s with
              | some q =>
                  by_cases hover : asset_summary.total_qty < q
                  · exact Or.inl ⟨.insufficientQty, by simp,
                      fun ok => by simp [handle_sell, hp, hz, hfind, hpos, hq, hover]⟩
                  · rcases sellCommit_master s.user_id (fullSymbol s.asset_symbol) q p db with
                      ⟨e, hne, hrun⟩ | ⟨db1, hport, hrun⟩
                    · exact Or.inl ⟨e, hne,
                        fun ok => by simp [handle_sell, hp, hz, hfind, hpos, hq, hover, hrun ok]⟩
                    · right
                      refine ⟨db1, q, p, hport, rfl, by rw [← hqty]; exact lt_of_not_le hpos,
                        Or.inl (by rw [← hqty]; exact not_lt.mp hover), fun ok => ?_⟩
                      simp [handle_sell, hp, hz, hfind, hpos, hq, hover, hrun ok]
              | none =>
                  cases hperc : truthyPerc s with
                  | none =>
                      exact Or.inl ⟨.invalidRequest, by simp,
                        fun ok => by simp [handle_sell, hp, hz, hfind, hpos, hq, hperc]⟩
                  | some perc =>
                      rcases sellCommit_master s.user_id (fullSymbol s.asset_symbol)
                          (asset_summary.total_qty * ((perc : Q) / 100)) p db with
                        ⟨e, hne, hrun⟩ | ⟨db1, hport, hrun⟩
                      · exact Or.inl ⟨e, hne,
                          fun ok => by
                            simp [handle_sell, hp, hz, hfind, hpos, hq, hperc, hrun ok]⟩
                      · right
                        refine ⟨db1, asset_summary.total_qty * ((perc : Q) / 100), p, hport, rfl,
                          by rw [← hqty]; exact lt_of_not_le hpos,
                          Or.inr ⟨perc, rfl, by rw [hqty]⟩, fun ok => ?_⟩
                        simp [handle_sell, hp, hz, hfind, hpos, hq, hperc, hrun ok]

/-! ## Sell keeps positions non-negative (C9) -/

/-- A truthy `perc_withdraw` accepted by the request schema lies in [0, 100]. -/
theorem sell_schema_perc_bounds {s : SellReq} {perc : Int}
    (hs : sell_schema_ok s = true) (hp : truthyPerc s = some perc) :
    0 ≤ perc ∧ perc ≤ 100 := by
  unfold sell_schema_ok at hs
  rw [hp] at hs
  split at hs
  · exact absurd hs (by simp)
  · simp at hs
    omega

/-- C9: a sell accepted by `add_transaction` (pydantic schema validation plus
the handler's own position and quantity checks) leaves the seller's position
in the sold asset non-negative. -/
theorem sell_position_nonneg (s : SellReq) (now : Nat) (db db' : DB) (entry : LedgerEntry)
    (h : executeTrade (.sell s) now true db = (db', .ok entry)) :
    0 ≤ position s.user_id (fullSymbol s.asset_symbol) db'.portfolio := by
  simp only [executeTrade] at h
  by_cases hs : sell_schema_ok s
  · rw [if_pos hs] at h
    rcases handle_sell_master s now db with ⟨e, _, hrun⟩ | ⟨db1, q, p, hport, _, hpos, hq, hrun⟩
    · rw [hrun true] at h
      simp at h
    · rw [hrun true] at h
      simp only [if_true] at h
      rw [Prod.ext_iff] at h
      obtain ⟨hdb, _⟩ := h
      dsimp only at hdb
      have hdbport : db'.portfolio =
          db.portfolio ++ [sellEntry s.user_id (fullSymbol s.asset_symbol) q p] := by
        rw [← hdb]
        dsimp only
        rw [hport]
      rw [hdbport, position_append]
      rw [if_pos ⟨rfl, rfl⟩]
      have hqty : (sellEntry s.user_id (fullSymbol s.asset_symbol) q p).qty = -q := rfl
      rw [hqty]
      rcases hq with hle | ⟨perc, hperc, hqeq⟩
      · linarith
      · obtain ⟨h0, h100⟩ := sell_schema_perc_bounds hs hperc
        rw [hqeq]
        have hc0 : (0 : Q) ≤ (perc : Q) := by exact_mod_cast h0
        have hc100 : (perc : Q) ≤ 100 := by exact_mod_cast h100
        have hdiv : (perc : Q) / 100 ≤ 1 := by
          rw [div_le_one (by norm_num)]
          exact hc100
        have hmul : position s.user_id (fullSymbol s.asset_symbol) db.portfolio *
            ((perc : Q) / 100) ≤ position s.user_id (fullSymbol s.asset_symbol) db.portfolio :=
          mul_le_of_le_one_right hpos.le hdiv
        linarith
  · rw [if_neg hs] at h
    simp at h

/-- A state where user 1 holds 2 BTCUSDT bought earlier, with cash and a
cached price, so that a concrete sell succeeds. -/
def dbS : DB :=
  { wallets := [⟨1, 100⟩],
    portfolio := [⟨1, "BTCUSDT", .buy, 2, 100, 50, 1 / 100⟩],
    price_history := [⟨"BTCUSDT", 100, "1h", 50, 50, 50, 50⟩] }

/-- The state after selling 1 BTCUSDT at 50 from `dbS`. -/
def dbS' : DB :=
  { wallets := [⟨1, 29999 / 200⟩],
    portfolio := [⟨1, "BTCUSDT", .buy, 2, 100, 50, 1 / 100⟩,
      ⟨1, "BTCUSDT", .sell, -1, -(9999 / 200), 50, 1 / 200⟩],
    price_history := [⟨"BTCUSDT", 100, "1h", 50, 50, 50, 50⟩] }

/-- Witness for C9: the concrete sell of 1 of 2 held units succeeds and the
resulting position is non-negative. -/
theorem sell_position_nonneg_witness :
    0 ≤ position 1 (fullSymbol "BTC")
        (dbS' : DB).portfolio :=
  sell_position_nonneg ⟨1, "BTC", some 1, none⟩ 100 dbS dbS'
    ⟨1, "BTCUSDT", .sell, -1, -(9999 / 200), 50, 1 / 200⟩
    (by
      have hfs := fullSymbol_BTC
      norm_num [executeTrade, sell_schema_ok, truthyQty, truthyPerc, handle_sell, get_price,
        hfs, latestRow, dbS, dbS', get_summary, userEntries, distinctSymbols, sumCol,
        sellCommit, sellEntry, round3, roundHalfEven, update_balance, updateFirst,
        get_balance, FEE_RATE, Option.some_ne_none])

/-! ## Trade failure effects on state (C1) -/

/-- Unified branch structure of `add_transaction`. -/
theorem executeTrade_master (req : TradeReq) (now : Nat) (db : DB) :
    (∃ e, e ≠ TradeErr.appendFailed ∧ ∀ ok, executeTrade req now ok db = (db, .error e)) ∨
    (∃ db1 entry, db1.portfolio = db.portfolio ∧
      ∀ ok, executeTrade req now ok db =
        (if ok then ({ db1 with portfolio := db1.portfolio ++ [entry] }, .ok entry)
         else (db1, .error .appendFailed))) := by
  cases req with
  | buy b =>
      by_cases hbs : buy_schema_ok b
      · rcases handle_buy_master b now db with ⟨e, hne, hrun⟩ | ⟨db1, p, hport, _, _, _, hrun⟩
        · exact Or.inl ⟨e, hne, fun ok => by simp only [executeTrade, hbs, if_true, hrun ok]⟩
        · exact Or.inr ⟨db1, buyEntry b p, hport,
            fun ok => by simp only [executeTrade, hbs, if_true, hrun ok]⟩
      · exact Or.inl ⟨.schemaInvalid, by simp,
          fun ok => by simp only [executeTrade, hbs, Bool.false_eq_true, if_false]⟩
  | sell s =>
      by_cases hss : sell_schema_ok s
      · rcases handle_sell_master s now db with
          ⟨e, hne, hrun⟩ | ⟨db1, q, p, hport, _, _, _, hrun⟩
        · exact Or.inl ⟨e, hne, fun ok => by simp only [executeTrade, hss, if_true, hrun ok]⟩
        · exact Or.inr ⟨db1, sellEntry s.user_id (fullSymbol s.asset_symbol) q p, hport,
            fun ok => by simp only [executeTrade, hss, if_true, hrun ok]⟩
      · exact Or.inl ⟨.schemaInvalid, by simp,
          fun ok => by simp only [executeTrade, hss, Bool.false_eq_true, if_false]⟩

/-- C1 amended: every trade failure raised *before* the ledger insert leaves
the state exactly as before the call; but when the ledger insert itself
fails after the committed balance mutation, the mutation is **not** rolled
back — the failed call ends with the ledger unchanged and the same wallets
the successful call would have produced. -/
theorem trade_failure_state (req : TradeReq) (now : Nat) (db : DB) :
    (∀ db' e, executeTrade req now true db = (db', .error e) → db' = db) ∧
    (∀ db' e, executeTrade req now false db = (db', .error e) → e ≠ .appendFailed → db' = db) ∧
    (∀ db', executeTrade req now false db = (db', .error .appendFailed) →
      db'.portfolio = db.portfolio ∧
      ∃ dbS entry, executeTrade req now true db = (dbS, .ok entry) ∧
        dbS.wallets = db'.wallets) := by
  rcases executeTrade_master req now db with ⟨e, hne, hrun⟩ | ⟨db1, entry, hport, hrun⟩
  · refine ⟨?_, ?_, ?_⟩
    · intro db' e' h
      rw [hrun true, Prod.ext_iff] at h
      exact h.1.symm
    · intro db' e' h _
      rw [hrun false, Prod.ext_iff] at h
      exact h.1.symm
    · intro db' h
      rw [hrun false, Prod.ext_iff] at h
      have h2 := h.2
      dsimp only at h2
      injection h2 with h2
      exact absurd h2 hne
  · refine ⟨?_, ?_, ?_⟩
    · intro db' e' h
      rw [hrun true] at h
      simp only [if_true] at h
      rw [Prod.ext_iff] at h
      have h2 := h.2
      dsimp only at h2
      simp at h2
    · intro db' e' h hne'
      rw [hrun false] at h
      simp only [Bool.false_eq_true, if_false] at h
      rw [Prod.ext_iff] at h
      have h2 := h.2
      dsimp only at h2
      injection h2 with h2
      exact absurd h2.symm hne'
    · intro db' h
      rw [hrun false] at h
      simp only [Bool.false_eq_true, if_false] at h
      rw [Prod.ext_iff] at h
      obtain ⟨h1, _⟩ := h
      dsimp only at h1
      subst h1
      refine ⟨hport, { db1 with portfolio := db1.portfolio ++ [entry] }, entry, ?_, rfl⟩
      rw [hrun true]
      simp

/-- The state `db0` ends in when the ledger insert of a 50-unit buy fails:
the debit is already committed, no ledger row exists. -/
def db0f : DB :=
  { wallets := [⟨1, 50⟩], portfolio := [],
    price_history := [⟨"BTCUSDT", 100, "1h", 50, 50, 50, 50⟩] }

/-- C1 counterexample: a concrete buy whose ledger insert fails still ends
with the wallet debited from 100 to 50 — the failed request does not leave
`BalanceAccount` as it was before the call, so the all-or-nothing claim is
false on the code. -/
theorem trade_no_rollback_counterexample :
    executeTrade (.buy ⟨1, "BTC", 50⟩) 100 false db0 = (db0f, .error .appendFailed) ∧
      ¬db0f.wallets = db0.wallets := by
  constructor
  · norm_num [executeTrade, buy_schema_ok, handle_buy, get_price, fullSymbol_BTC, latestRow,
      db0, db0f, get_balance, update_balance, updateFirst, FEE_RATE, MINIMUM_INVESTMENT]
  · norm_num [db0, db0f]

/-- Witness for C1 (amended): at the concrete failed buy, the ledger is
unchanged and the wallets equal those of the successful run. -/
theorem trade_failure_state_witness :
    db0f.portfolio = db0.portfolio ∧
      ∃ dbS entry, executeTrade (.buy ⟨1, "BTC", 50⟩) 100 true db0 = (dbS, .ok entry) ∧
        dbS.wallets = db0f.wallets :=
  (trade_failure_state (.buy ⟨1, "BTC", 50⟩) 100 db0).2.2 db0f
    (by norm_num [executeTrade, buy_schema_ok, handle_buy, get_price, fullSymbol_BTC, latestRow,
      db0, db0f, get_balance, update_balance, updateFirst, FEE_RATE, MINIMUM_INVESTMENT])

/-! ## Sign and value of the buy ledger entry (C3) -/

/-- C3 amended: an accepted buy appends a ledger entry with
`qty = (amount − amount·fee_rate)/price` and
`net_val = +(amount − amount·fee_rate)` — strictly positive, not the negated
value the claim states (the code stores the positive net value on buys and
the negative one on sells). -/
theorem buy_entry_values (b : BuyReq) (now : Nat) (db db' : DB) (entry : LedgerEntry) (p : Q)
    (h : handle_buy b now true db = (db', .ok entry))
    (hp : get_price b.asset_symbol now db = some p) :
    entry.qty = (b.amount_val - b.amount_val * FEE_RATE) / p ∧
      entry.net_val = b.amount_val - b.amount_val * FEE_RATE ∧
      0 < entry.net_val ∧ (0 < p → 0 < entry.qty) ∧
      db'.portfolio = db.portfolio ++ [entry] := by
  rcases handle_buy_master b now db with ⟨e, _, hrun⟩ | ⟨db1, p', hport, hp', _, hmin, hrun⟩
  · rw [hrun true] at h
    simp at h
  · rw [hrun true] at h
    simp only [if_true] at h
    rw [Prod.ext_iff] at h
    obtain ⟨hdb, hentry⟩ := h
    dsimp only at hdb hentry
    injection hentry with hentry
    have hpp : p' = p := by
      rw [hp] at hp'
      injection hp' with hh
      exact hh.symm
    subst hpp
    subst hentry
    have hnet : (buyEntry b p').net_val = b.amount_val - b.amount_val * FEE_RATE := rfl
    have hqty : (buyEntry b p').qty = (b.amount_val - b.amount_val * FEE_RATE) / p' := rfl
    have hminv : (10 : Q) ≤ b.amount_val := by
      have : MINIMUM_INVESTMENT = (10 : Q) := rfl
      rw [← this]
      exact hmin
    have hpos : 0 < b.amount_val - b.amount_val * FEE_RATE := by
      unfold FEE_RATE
      nlinarith
    refine ⟨hqty, hnet, by rw [hnet]; exact hpos, ?_, ?_⟩
    · intro hp0
      rw [hqty]
      exact div_pos hpos hp0
    · rw [← hdb]
      dsimp only
      rw [hport]

/-- The ledger entry the concrete 100-unit buy at price 50 appends. -/
def entryB : LedgerEntry := ⟨1, "BTCUSDT", .buy, 9999 / 5000, 9999 / 100, 50, 1 / 100⟩

/-- The state after that buy: balance 0, one ledger row. -/
def db0b : DB :=
  { wallets := [⟨1, 0⟩], portfolio := [entryB],
    price_history := [⟨"BTCUSDT", 100, "1h", 50, 50, 50, 50⟩] }

/-- C3 counterexample: the accepted buy of 100 at price 50 stores
`net_val = +99.99`, while the claim demands `−(100 − 100·r) = −99.99`. -/
theorem buy_net_val_sign_counterexample :
    (executeTrade (.buy ⟨1, "BTC", 100⟩) 100 true db0).2 = .ok entryB ∧
      ¬((9999 : Q) / 100 = -(100 - 100 * FEE_RATE)) := by
  constructor
  · norm_num [executeTrade, buy_schema_ok, handle_buy, get_price, fullSymbol_BTC, latestRow,
      db0, entryB, get_balance, update_balance, updateFirst, buyEntry, FEE_RATE,
      MINIMUM_INVESTMENT]
  · norm_num [FEE_RATE]

/-- Witness for C3 (amended) at the concrete buy of 100 at price 50. -/
theorem buy_entry_values_witness :
    entryB.qty = ((100 : Q) - 100 * FEE_RATE) / 50 ∧
      entryB.net_val = (100 : Q) - 100 * FEE_RATE ∧
      0 < entryB.net_val ∧ ((0 : Q) < 50 → 0 < entryB.qty) ∧
      db0b.portfolio = db0.portfolio ++ [entryB] :=
  buy_entry_values ⟨1, "BTC", 100⟩ 100 db0 db0b entryB 50
    (by norm_num [handle_buy, get_price, fullSymbol_BTC, latestRow, db0, db0b, entryB,
      get_balance, update_balance, updateFirst, buyEntry, FEE_RATE, MINIMUM_INVESTMENT])
    (by decide)

/-! ## PnL rows (C7) -/

theorem mapOpt_mem {α β : Type} {f : α → Option β} :
    ∀ {l : List α} {bs : List β}, mapOpt f l = some bs → ∀ b ∈ bs, ∃ a ∈ l, f a = some b
  | [], bs, h => by
      simp only [mapOpt] at h
      injection h with h
      subst h
      simp
  | a :: as, bs, h => by
      simp only [mapOpt] at h
      cases hfa : f a with
      | none => rw [hfa] at h; simp at h
      | some b0 =>
          rw [hfa] at h
          cases hrest : mapOpt f as with
          | none => rw [hrest] at h; simp at h
          | some bs' =>
              rw [hrest] at h
              simp only [Option.map_some] at h
              injection h with h
              subst h
              intro b hb
              rcases List.mem_cons.mp hb with rfl | hb'
              · exact ⟨a, by simp, hfa⟩
              · rcases mapOpt_mem hrest b hb' with ⟨a', ha', hfa'⟩
                exact ⟨a', by simp [ha'], hfa'⟩

/-- C7: every row of a successful PnL call reports
`pnl = received − invested`, plus `current_price · current_qty` exactly when
the position is still open (`current_qty > 0`, priced from the cache), and
reports `current_price = 0` with no unrealized term when `current_qty ≤ 0` —
so a fully-closed position shows `pnl = received − invested`. -/
theorem pnl_rows_correct (uid now : Nat) (db : DB) (rows : List PnlRow)
    (h : get_pnl uid now db = some rows) :
    ∀ row ∈ rows,
      row.pnl = row.total_received - row.total_invested +
          (if 0 < row.current_qty then row.current_price * row.current_qty else 0) ∧
        (row.current_qty ≤ 0 → row.current_price = 0) := by
  intro row hrow
  obtain ⟨sym, _, hsym⟩ := mapOpt_mem h row hrow
  unfold pnlRow at hsym
  by_cases hq : 0 < sumCol (·.qty) ((userEntries uid db).filter (fun e => e.asset_symbol == sym))
  · rw [if_pos hq] at hsym
    cases hgp : get_price (stripPair sym) now db with
    | none => rw [hgp] at hsym; simp at hsym
    | some cp =>
        rw [hgp] at hsym
        injection hsym with hsym
        subst hsym
        constructor
        · dsimp only
          rw [if_pos hq]
        · intro hle
          dsimp only at hle
          exact absurd hq (not_lt.mpr hle)
  · rw [if_neg hq] at hsym
    injection hsym with hsym
    subst hsym
    constructor
    · dsimp only
      rw [if_neg hq]
      ring
    · intro _
      rfl

/-- A ledger holding one fully-closed position of user 1: bought 2 for a net
100, sold 2 for a net 99. -/
def dbP : DB :=
  { wallets := [],
    portfolio := [⟨1, "BTCUSDT", .buy, 2, 100, 50, 1 / 100⟩,
      ⟨1, "BTCUSDT", .sell, -2, -99, 50, 1 / 100⟩],
    price_history := [] }

/-- The PnL row `get_pnl` reports for `dbP`: closed position, price 0,
`pnl = 99 − 100`. -/
def rowP : PnlRow := ⟨"BTCUSDT", 100, 99, 0, 0, -1⟩

/-- Witness for C7: the fully-closed position reports `current_price = 0`
and `pnl = received − invested` with no unrealized term. -/
theorem pnl_rows_correct_witness :
    rowP.pnl = rowP.total_received - rowP.total_invested +
        (if 0 < rowP.current_qty then rowP.current_price * rowP.current_qty else 0) ∧
      (rowP.current_qty ≤ 0 → rowP.current_price = 0) :=
  pnl_rows_correct 1 0 dbP [rowP]
    (by
      have h1 : (TradeType.sell = TradeType.buy) = False := by simp
      have h2 : (TradeType.buy = TradeType.sell) = False := by simp
      norm_num [get_pnl, mapOpt, pnlRow, userEntries, distinctSymbols, sumCol, dbP, rowP,
        h1, h2])
    rowP (by simp)

end InvestApp
